import Mathlib

/-!
Verification development for the Skibidi card-game engine
(`src/skibidi/src/skibidi/{card,dealer,player,game}.py`).

The Python sources are shallowly embedded: every pile, hand and view is a
Lean list, every fallible operation returns `Except Err`, and every call to
`random.shuffle` / `random.choices` is abstracted as an explicit function
parameter (theorems that need the shuffled list to be a permutation of its
input take that as a hypothesis; concrete witnesses instantiate the shuffle
with the identity function, which is a permutation).

Python exceptions are modelled by the `Err` type.  A raised exception
aborts the whole embedded operation (`Except` has no way to return the
partially mutated state); wherever a source function mutates state before
raising, a comment records what the partial mutation was.
-/

namespace Skibidi

/-- Card.Suit (card.py): SPADES, HEARTS, DIAMONDS, CLUBS, in declaration order. -/
inductive Suit where
  | spades
  | hearts
  | diamonds
  | clubs
deriving DecidableEq, Repr

/-- Card.Rank (card.py): ACE..KING then the two jokers, in declaration order. -/
inductive Rank where
  | ace
  | two
  | three
  | four
  | five
  | six
  | seven
  | eight
  | nine
  | ten
  | jack
  | queen
  | king
  | jokerRed
  | jokerBlack
deriving DecidableEq, Repr

/-- Card.Effect (card.py): NONE, SHUFFLE, DRAW, SWAP, PEEK. -/
inductive Effect where
  | none
  | shuffle
  | draw
  | swap
  | peek
deriving DecidableEq, Repr

/-- A card: suit (None for jokers) and rank, the identity used by `Card.__eq__`. -/
structure Card where
  suit : Option Suit
  rank : Rank
deriving DecidableEq, Repr

/-- Card._init_effect (card.py:50-64).  KING: SHUFFLE for hearts/diamonds else
DRAW; QUEEN: SWAP; JACK: PEEK; everything else NONE. -/
def Card.effect (c : Card) : Effect :=
  if c.rank = Rank.king then
    if c.suit = some Suit.hearts ∨ c.suit = some Suit.diamonds then Effect.shuffle
    else Effect.draw
  else if c.rank = Rank.queen then Effect.swap
  else if c.rank = Rank.jack then Effect.peek
  else Effect.none

/-- Card.value (card.py:66-74): jokers 0, face cards 10, ace 1, numerals their
numeric value (`int(self.rank)` on the rank's string value). -/
def Card.value (c : Card) : Nat :=
  match c.rank with
  | Rank.jokerRed => 0
  | Rank.jokerBlack => 0
  | Rank.jack => 10
  | Rank.queen => 10
  | Rank.king => 10
  | Rank.ace => 1
  | Rank.two => 2
  | Rank.three => 3
  | Rank.four => 4
  | Rank.five => 5
  | Rank.six => 6
  | Rank.seven => 7
  | Rank.eight => 8
  | Rank.nine => 9
  | Rank.ten => 10

/-- The suits in `Card.Suit` iteration order. -/
def allSuits : List Suit :=
  [Suit.spades, Suit.hearts, Suit.diamonds, Suit.clubs]

/-- The ranks in `Card.Rank` iteration order. -/
def allRanks : List Rank :=
  [Rank.ace, Rank.two, Rank.three, Rank.four, Rank.five, Rank.six, Rank.seven,
   Rank.eight, Rank.nine, Rank.ten, Rank.jack, Rank.queen, Rank.king,
   Rank.jokerRed, Rank.jokerBlack]

/-- True for the two joker ranks (`rank in [JOKER_RED, JOKER_BLACK]`). -/
def Rank.isJoker : Rank → Bool
  | Rank.jokerRed => true
  | Rank.jokerBlack => true
  | _ => false

/-- Dealer.init_deck (dealer.py:47-55): one card per (suit, non-joker rank)
pair in nested iteration order, then the red and black jokers. -/
def initDeck : List Card :=
  (allSuits.flatMap fun s =>
    (allRanks.filter fun r => !(r.isJoker)).map fun r => Card.mk (some s) r)
  ++ [Card.mk none Rank.jokerRed, Card.mk none Rank.jokerBlack]

/-- Python exceptions raised by the embedded code. -/
inductive Err where
  | valueError
  | indexError
  | keyError
  | attributeError
  | typeError
deriving DecidableEq, Repr

/-- Python `list.pop()` (pop from the end = pile top); `none` models the
IndexError on an empty list. -/
def popTop {α : Type} (l : List α) : Option (α × List α) :=
  match l.getLast? with
  | Option.none => Option.none
  | some c => some (c, l.dropLast)

/-- Pop `k` cards one at a time from the end, returning them in pop order. -/
def popN {α : Type} : Nat → List α → Option (List α × List α)
  | 0, l => some ([], l)
  | k + 1, l => do
    let (c, l₁) ← popTop l
    let (cs, l₂) ← popN k l₁
    some (c :: cs, l₂)

/-- Bounds-checked list read; `Err.indexError` models Python's IndexError. -/
def geth {α : Type} (l : List α) (i : Nat) : Except Err α :=
  match l[i]? with
  | some x => Except.ok x
  | Option.none => Except.error Err.indexError

/-- Normalize a Python index: negative indices count from the end; an index
out of range raises IndexError. -/
def pyNorm (len : Nat) (i : Int) : Except Err Nat :=
  let j : Int := if i < 0 then (len : Int) + i else i
  if 0 ≤ j ∧ j < (len : Int) then Except.ok j.toNat else Except.error Err.indexError

/-- Python `l[i]` with full index semantics. -/
def pyGet {α : Type} (l : List α) (i : Int) : Except Err α := do
  let j ← pyNorm l.length i
  geth l j

/-- Python `l[i] = x` with full index semantics. -/
def pySet {α : Type} (l : List α) (i : Int) (x : α) : Except Err (List α) := do
  let j ← pyNorm l.length i
  Except.ok (l.set j x)

/-- Python `l.pop(i)` with full index semantics. -/
def pyPop {α : Type} (l : List α) (i : Int) : Except Err (α × List α) := do
  let j ← pyNorm l.length i
  let x ← geth l j
  Except.ok (x, l.eraseIdx j)

/-- Python `min(l)`; ValueError on an empty list. -/
def pyMin (l : List Int) : Except Err Int :=
  match l with
  | [] => Except.error Err.valueError
  | x :: xs => Except.ok (xs.foldl min x)

/-- Monadic map carrying the element's position (the enumeration index the
source loops derive from `self.players`). -/
def mapWithIndexM {α β : Type} (f : Nat → α → Except Err β) :
    Nat → List α → Except Err (List β)
  | _, [] => Except.ok []
  | k, x :: xs => do
    let y ← f k x
    let ys ← mapWithIndexM f (k + 1) xs
    Except.ok (y :: ys)

/-- Pure analogue of `mapWithIndexM`, used to state what the monadic map
computes when no step fails. -/
def mapWithIndexPure {α β : Type} (g : Nat → α → β) : Nat → List α → List β
  | _, [] => []
  | k, x :: xs => g k x :: mapWithIndexPure g (k + 1) xs

/-- Dealer (dealer.py).  `drawPile`/`discardPile`/`treasure` are the piles
(list end = pile top).  `viewDrawPileSize` and `viewDiscardPile` embed the
public `Dealer.View`; `viewDiscardPile` in the source is a reference to a
Python list object, so `viewAliased` records whether that object is the
dealer's *current* `discard_pile` object: when it is, an in-place mutation of
the discard pile is visible through the view, while rebinding
`self.discard_pile` to a fresh list leaves the view pointing at the old
object until the next `view.update`. -/
structure Dealer where
  handSize : Nat
  treasureSize : Nat
  drawPile : List Card
  discardPile : List Card
  treasure : List Card
  viewDrawPileSize : Nat
  viewDiscardPile : List Card
  viewAliased : Bool
deriving DecidableEq, Repr

/-- Dealer.View.update (dealer.py:21-23): re-read the draw-pile size and
rebind the view's discard-pile reference to the current list object. -/
def Dealer.viewUpdate (d : Dealer) : Dealer :=
  { d with viewDrawPileSize := d.drawPile.length
           viewDiscardPile := d.discardPile
           viewAliased := true }

/-- In-place `self.discard_pile.append(card)`: an aliased view sees the
mutation through its reference. -/
def Dealer.discardAppend (d : Dealer) (c : Card) : Dealer :=
  { d with discardPile := d.discardPile ++ [c]
           viewDiscardPile :=
             if d.viewAliased then d.viewDiscardPile ++ [c] else d.viewDiscardPile }

/-- Dealer.__init__ (dealer.py:38-45): full deck as the draw pile, empty
discard and treasure, freshly built view. -/
def Dealer.init (handSize treasureSize : Nat) : Dealer :=
  Dealer.viewUpdate
    { handSize := handSize
      treasureSize := treasureSize
      drawPile := initDeck
      discardPile := []
      treasure := []
      viewDrawPileSize := 0
      viewDiscardPile := []
      viewAliased := false }

/-- Dealer.reset_deck (dealer.py:57-62): draw pile := shuffled copy of the
full deck, discard and treasure rebound to fresh empty lists, then
`view.update`. -/
def Dealer.resetDeck (shuffle : List Card → List Card) (d : Dealer) : Dealer :=
  Dealer.viewUpdate
    { d with drawPile := shuffle initDeck
             discardPile := []
             treasure := []
             viewAliased := false }

/-- Dealer.reshuffle_discard_into_draw (dealer.py:64-68): pop the discard top
in place (kept aside), draw pile := shuffled copy of the remaining discard
pile, discard pile rebound to `[top]` (or `[]` when there was no top).
`view.update` is NOT called: the view keeps the old draw-pile size, and its
discard reference now points at the popped old list object. -/
def Dealer.reshuffleDiscardIntoDraw (shuffle : List Card → List Card)
    (d : Dealer) : Dealer :=
  let top := d.discardPile.getLast?
  let d₁ : Dealer :=
    match top with
    | some _ =>
      { d with discardPile := d.discardPile.dropLast
               viewDiscardPile :=
                 if d.viewAliased then d.viewDiscardPile.dropLast
                 else d.viewDiscardPile }
    | Option.none => d
  { d₁ with drawPile := shuffle d₁.discardPile
            discardPile :=
              match top with
              | Option.none => []
              | some t => [t]
            viewAliased := false }

/-- Dealer.draw_from_draw (dealer.py:87-94): reshuffle when the draw pile is
empty, then pop its top and refresh the view, or raise
ValueError ("Deck is empty") when still empty. -/
def Dealer.drawFromDraw (shuffle : List Card → List Card) (d : Dealer) :
    Except Err (Card × Dealer) :=
  let d₁ := if d.drawPile.isEmpty then d.reshuffleDiscardIntoDraw shuffle else d
  match popTop d₁.drawPile with
  | some (c, rest) => Except.ok (c, Dealer.viewUpdate { d₁ with drawPile := rest })
  | Option.none => Except.error Err.valueError

/-- Dealer.draw_from_discard (dealer.py:96-101): pop the discard top in place
and refresh the view, or raise ValueError ("Discard pile is empty"). -/
def Dealer.drawFromDiscard (d : Dealer) : Except Err (Card × Dealer) :=
  match d.discardPile.getLast? with
  | some c =>
    Except.ok (c, Dealer.viewUpdate
      { d with discardPile := d.discardPile.dropLast
               viewDiscardPile :=
                 if d.viewAliased then d.viewDiscardPile.dropLast
                 else d.viewDiscardPile })
  | Option.none => Except.error Err.valueError

/-- Dealer.Source (dealer.py:9-14). -/
inductive Source where
  | draw
  | discard
deriving DecidableEq, Repr

/-- Dealer.draw (dealer.py:103-108): dispatch on the source. -/
def Dealer.draw (shuffle : List Card → List Card) (d : Dealer) (s : Source) :
    Except Err (Card × Dealer) :=
  match s with
  | Source.draw => d.drawFromDraw shuffle
  | Source.discard => d.drawFromDiscard

/-- Dealer.discard (dealer.py:110-112): in-place append then `view.update`. -/
def Dealer.discard (d : Dealer) (c : Card) : Dealer :=
  Dealer.viewUpdate (d.discardAppend c)

/-- One pass of the inner loop of deal_initial_hands (dealer.py:74-77): deal
one card off the top of the draw pile to each player, in player order. -/
def dealHandsRound (hands : List (List Card)) (draw : List Card) :
    Option (List (List Card) × List Card) :=
  match hands with
  | [] => some ([], draw)
  | h :: hs => do
    let (c, draw₁) ← popTop draw
    let (hs₁, draw₂) ← dealHandsRound hs draw₁
    some ((h ++ [c]) :: hs₁, draw₂)

/-- `for _ in range(hand_size)` around `dealHandsRound`. -/
def dealHandsRounds : Nat → List (List Card) → List Card →
    Option (List (List Card) × List Card)
  | 0, hands, draw => some (hands, draw)
  | k + 1, hands, draw => do
    let (hands₁, draw₁) ← dealHandsRound hands draw
    dealHandsRounds k hands₁ draw₁

/-- Dealer.deal_initial_hands (dealer.py:70-85).  Raise ValueError ("Not
enough cards…", the spec's InsufficientCardsError) before any mutation when
the draw pile holds fewer than `players*handSize + treasureSize + 1` cards;
otherwise deal round-robin one card at a time, then the treasure, then one
card to seed the discard pile (in-place append), then `view.update`.  The
hands dict is modelled as a list of hands in player order (Python dicts
iterate in insertion order); the inner pops cannot fail once the size guard
passes, and a hypothetical failure is surfaced as IndexError. -/
def Dealer.dealInitialHands (d : Dealer) (hands : List (List Card)) :
    Except Err (Dealer × List (List Card)) :=
  if d.drawPile.length < hands.length * d.handSize + d.treasureSize + 1 then
    Except.error Err.valueError
  else
    match dealHandsRounds d.handSize hands d.drawPile with
    | Option.none => Except.error Err.indexError
    | some (hands₁, draw₁) =>
      match popN d.treasureSize draw₁ with
      | Option.none => Except.error Err.indexError
      | some (tcards, draw₂) =>
        match popTop draw₂ with
        | Option.none => Except.error Err.indexError
        | some (c, draw₃) =>
          Except.ok
            (Dealer.viewUpdate
              (Dealer.discardAppend
                { d with drawPile := draw₃, treasure := d.treasure ++ tcards } c),
             hands₁)

/-- The mutating Dealer operations named by the spec's view-freshness rule. -/
inductive DealerOp where
  | reset
  | deal (hands : List (List Card))
  | reshuffle
  | drawDraw
  | drawDiscard
  | disc (c : Card)
deriving DecidableEq, Repr

/-- Run one mutating Dealer operation, returning the dealer it leaves behind. -/
def runOp (shuffle : List Card → List Card) (op : DealerOp) (d : Dealer) :
    Except Err Dealer :=
  match op with
  | DealerOp.reset => Except.ok (d.resetDeck shuffle)
  | DealerOp.deal hands => (d.dealInitialHands hands).map Prod.fst
  | DealerOp.reshuffle => Except.ok (d.reshuffleDiscardIntoDraw shuffle)
  | DealerOp.drawDraw => (d.drawFromDraw shuffle).map Prod.snd
  | DealerOp.drawDiscard => d.drawFromDiscard.map Prod.snd
  | DealerOp.disc c => Except.ok (d.discard c)

/-- The public view is synchronized with the dealer's piles: the spec's
"no stale-view window". -/
def ViewFresh (d : Dealer) : Prop :=
  d.viewDrawPileSize = d.drawPile.length ∧ d.viewDiscardPile = d.discardPile

instance : DecidablePred ViewFresh := fun d => by
  unfold ViewFresh; infer_instance

/-- The conserved quantity of the pile-conservation invariant: cards in the
draw pile, discard pile, treasure, all hands, and the drawn card in flight. -/
def totalCards (d : Dealer) (hands : List (List Card)) (drawn : Option Card) :
    Nat :=
  d.drawPile.length + d.discardPile.length + d.treasure.length +
    (hands.map List.length).sum + (if drawn.isSome then 1 else 0)

/-- Player.View (player.py:32-53).  `hand` is the player's knowledge of their
own hand (None = unknown), `oppHands` the per-opponent knowledge.  Player
names are modelled by player indices; `opponents_hands` is a dict missing the
player's own name, modelled as a position-indexed list whose entry at the
owner's own index is `none` (subscripting it there is Python's KeyError). -/
structure PView where
  drawnCard : Option Card
  hand : List (Option Card)
  oppHands : List (Option (List (Option Card)))
  treasure : List (Option Card)
deriving DecidableEq, Repr

/-- Subscript `view.opponents_hands[name]`: KeyError when the key (an absent
own name, or a non-player) is missing. -/
def getOpp (v : PView) (p : Nat) : Except Err (List (Option Card)) :=
  match v.oppHands[p]? with
  | some (some l) => Except.ok l
  | _ => Except.error Err.keyError

/-- Write back one opponent entry of a view. -/
def setOpp (v : PView) (p : Nat) (l : List (Option Card)) : PView :=
  { v with oppHands := v.oppHands.set p (some l) }

/-- Player.View.reset (player.py:45-53): fully-unknown knowledge sized by the
dealer's `hand_size`/`treasure_size`, with an `opponents_hands` entry for
every player except the owner. -/
def viewReset (n handSize treasureSize p : Nat) : PView :=
  { drawnCard := Option.none
    hand := List.replicate handSize Option.none
    oppHands :=
      (List.range n).map fun q =>
        if q = p then Option.none else some (List.replicate handSize Option.none)
    treasure := List.replicate treasureSize Option.none }

/-- The `initially_known` constructor argument of Game (game.py:45,58).  It is
annotated `int` and defaults to 2, but `init_round` iterates over it
directly (game.py:308), which only works when a list of indices is smuggled
in (as the unit tests do); iterating an actual `int` raises TypeError. -/
inductive IK where
  | intConfig (k : Int)
  | listConfig (idxs : List Int)
deriving DecidableEq, Repr

/-- `for i in self.initially_known` (game.py:308): the sequence of revealed
indices, or TypeError when the configured value is an `int`. -/
def iterIndices : IK → Except Err (List Int)
  | IK.intConfig _ => Except.error Err.typeError
  | IK.listConfig l => Except.ok l

/-- Game state (game.py).  `hands` is the name-keyed true-hand dict in player
order, `views` the players' views in player order, `scores`/`round` live on
Game.View, `callerIndex` is -1 while nobody has called. -/
structure GameState where
  dealer : Dealer
  hands : List (List Card)
  views : List PView
  effectsQueue : List (Nat × Effect)
  currentPlayerIndex : Nat
  callerIndex : Int
  scores : List Int
  round : Nat
  initiallyKnown : IK
deriving DecidableEq, Repr

/-- The players list's length (each player carries one view). -/
def numPlayers (s : GameState) : Nat := s.views.length

/-- Game.get_player_by_name (game.py:140-144): names are modelled by indices,
so the linear search succeeds exactly for indices of real players and raises
ValueError otherwise. -/
def getPlayerByName (s : GameState) (t : Nat) : Except Err Nat :=
  if t < numPlayers s then Except.ok t else Except.error Err.valueError

/-- Python `l.pop(j)` for an already-validated non-negative index. -/
def popAt {α : Type} (l : List α) (j : Nat) : Except Err (α × List α) := do
  let x ← geth l j
  Except.ok (x, l.eraseIdx j)

/-- Player.learn_card (player.py:92-98): bounds-check the index against the
view's own hand, ValueError when out of range. -/
def learnCard (s : GameState) (p : Nat) (idx : Int) (c : Card) :
    Except Err GameState := do
  let v ← geth s.views p
  if 0 ≤ idx ∧ idx < (v.hand.length : Int) then
    Except.ok
      { s with views := s.views.set p { v with hand := v.hand.set idx.toNat (some c) } }
  else Except.error Err.valueError

/-- Player.learn_opponent_card (player.py:100-109) acting on one view:
ValueError when the opponent is unknown or the index out of range. -/
def learnOppIntoView (v : PView) (opp : Nat) (idx : Int) (c : Card) :
    Except Err PView :=
  match v.oppHands[opp]? with
  | some (some l) =>
    if 0 ≤ idx ∧ idx < (l.length : Int) then
      Except.ok (setOpp v opp (l.set idx.toNat (some c)))
    else Except.error Err.valueError
  | _ => Except.error Err.valueError

/-- Player.learn_opponent_card lifted to the game state. -/
def learnOpponentCard (s : GameState) (observer opp : Nat) (idx : Int)
    (c : Card) : Except Err GameState := do
  let v ← geth s.views observer
  let v₁ ← learnOppIntoView v opp idx c
  Except.ok { s with views := s.views.set observer v₁ }

/-- Game.reveal_to_others (game.py:186-190): every player except `p` learns
`p`'s card at `idx`. -/
def revealToOthers (s : GameState) (p : Nat) (idx : Int) (c : Card) :
    Except Err GameState := do
  let views₁ ← mapWithIndexM
    (fun q v => if q = p then Except.ok v else learnOppIntoView v p idx c)
    0 s.views
  Except.ok { s with views := views₁ }

/-- Tail of Game.discard (game.py:161-163): push the card on the dealer's
discard pile, then queue its effect when it has one. -/
def dealerDiscardAndQueue (s : GameState) (p : Nat) (c : Card) : GameState :=
  let s₁ := { s with dealer := s.dealer.discard c }
  if c.effect ≠ Effect.none then
    { s₁ with effectsQueue := s₁.effectsQueue ++ [(p, c.effect)] }
  else s₁

/-- Game.discard (game.py:146-163) at its well-typed call sites: either a
card object (a drawn card, clears the player's `drawn_card`) or a hand index
(validated, then popped from the true hand, the player's own view and every
opponent's view of that hand). -/
def gameDiscard (s : GameState) (p : Nat) (card? : Option Card)
    (idx? : Option Int) : Except Err GameState :=
  match card?, idx? with
  | Option.none, Option.none => Except.error Err.valueError
  | some c, _ => do
    let v ← geth s.views p
    let s₁ :=
      { s with views := s.views.set p { v with drawnCard := Option.none } }
    Except.ok (dealerDiscardAndQueue s₁ p c)
  | Option.none, some idx => do
    let h ← geth s.hands p
    if 0 ≤ idx ∧ idx < (h.length : Int) then do
      let j := idx.toNat
      let (c, h₁) ← popAt h j
      let s₁ := { s with hands := s.hands.set p h₁ }
      let v ← geth s₁.views p
      let (_, vh) ← popAt v.hand j
      let views₁ := s₁.views.set p { v with hand := vh }
      let views₂ ← mapWithIndexM
        (fun q w =>
          if q = p then Except.ok w
          else do
            let l ← getOpp w p
            let (_, l₁) ← popAt l j
            Except.ok (setOpp w p l₁))
        0 views₁
      Except.ok (dealerDiscardAndQueue { s₁ with views := views₂ } p c)
    else Except.error Err.valueError

/-- Game.discard as invoked at game.py:227 (`self.discard(p, idx)`): the
positional call binds the integer `idx` to the `card` parameter.  The source
then clears `p`'s `drawn_card`, appends the raw integer (not a Card) to the
dealer's discard pile, and finally evaluates `card.effect` on that integer,
which raises AttributeError; the typed embedding surfaces the AttributeError
without materializing the foreign integer on the card-typed pile. -/
def gameDiscardIntCard (s : GameState) (p : Nat) (k : Int) :
    Except Err GameState :=
  let _ := s
  let _ := p
  let _ := k
  Except.error Err.attributeError

/-- Per-view step of Game.penalize (game.py:180-184): the penalized player's
own view and every opponent's view of their hand grow by one unknown slot. -/
def penalizeViewStep (p q : Nat) (v : PView) : Except Err PView :=
  if q = p then Except.ok { v with hand := v.hand ++ [Option.none] }
  else do
    let l ← getOpp v p
    Except.ok (setOpp v p (l ++ [Option.none]))

/-- Game.penalize (game.py:176-184): draw one card from the draw pile (which
may reshuffle), append it face-down to the player's true hand, and append an
unknown slot to every view of that hand. -/
def penalize (shuffle : List Card → List Card) (s : GameState) (p : Nat) :
    Except Err GameState := do
  let (c, dealer₁) ← s.dealer.draw shuffle Source.draw
  let h ← geth s.hands p
  let hands₁ := s.hands.set p (h ++ [c])
  let views₁ ← mapWithIndexM (penalizeViewStep p) 0 s.views
  Except.ok { s with dealer := dealer₁, hands := hands₁, views := views₁ }

/-- Game.exchange (game.py:165-174): validate the index, swap the drawn card
into the hand slot, reveal it to the acting player's own view when asked,
and return the replaced card. -/
def exchange (s : GameState) (p : Nat) (idx : Int) (c : Card) (reveal : Bool) :
    Except Err (Card × GameState) := do
  let h ← geth s.hands p
  if 0 ≤ idx ∧ idx < (h.length : Int) then do
    let old ← geth h idx.toNat
    let s₁ := { s with hands := s.hands.set p (h.set idx.toNat c) }
    if reveal then do
      let s₂ ← learnCard s₁ p idx c
      Except.ok (old, s₂)
    else Except.ok (old, s₁)
  else Except.error Err.valueError

/-- One simultaneous batch of reactive-discard declarations: a declared hand
index for each player in player order, and the weighted random selection
among the valid candidates (`random.choices` with the acting player's speed
advantage) modelled as an oracle pick. -/
structure Oracle where
  decls : List Int
  pick : List (Nat × Int) → Nat × Int

/-- The candidate filter of Game.allow_discards (game.py:210-212): keep the
declarations whose index is valid for the declaring player's hand (the
name-keyed hand lookup never fails for real players). -/
def validDecls (hands : List (List Card)) : List (Nat × Int) → List (Nat × Int)
  | [] => []
  | (p, idx) :: rest =>
    if 0 ≤ idx ∧ idx < ((hands.getD p []).length : Int) then
      (p, idx) :: validDecls hands rest
    else validDecls hands rest

/-- The `while True` loop of Game.allow_discards (game.py:205-230), one
oracle per iteration (each iteration re-queries every strategy).  `card` is
the discard-pile top read once at entry.  A mismatching chosen card penalizes
the chooser; a matching one reaches the positional `self.discard(p, idx)`
call, i.e. `gameDiscardIntCard`.  The loop breaks when no valid candidate
remains or the entry top card has no effect; an exhausted oracle list models
the strategies declining further declarations. -/
def allowDiscardsLoop (shuffle : List Card → List Card) (card : Card) :
    List Oracle → GameState → Except Err GameState
  | [], s => Except.ok s
  | o :: rest, s =>
    let cands := validDecls s.hands ((List.range (numPlayers s)).zip o.decls)
    if cands.isEmpty then Except.ok s
    else do
      let (p, idx) := o.pick cands
      let h ← geth s.hands p
      let candCard ← pyGet h idx
      if candCard ≠ card then do
        let s₁ ← penalize shuffle s p
        if card.effect = Effect.none then Except.ok s₁
        else allowDiscardsLoop shuffle card rest s₁
      else gameDiscardIntCard s p idx

/-- Game.allow_discards (game.py:192-230): nothing happens on an empty
discard pile; otherwise run the reactive loop against the entry top card. -/
def allowDiscards (shuffle : List Card → List Card) (oracles : List Oracle)
    (s : GameState) : Except Err GameState :=
  match s.dealer.discardPile.getLast? with
  | Option.none => Except.ok s
  | some card => allowDiscardsLoop shuffle card oracles s

/-- A strategy's `decide_effect` payload (strategy.py conventions), with
player names modelled by indices. -/
inductive Decision where
  | nameDec (t : Nat)
  | swapDec (a : Nat) (i : Int) (b : Nat) (j : Int)
  | peekDec (t : Nat) (i : Int)
  | noneDec
deriving DecidableEq, Repr

/-- The per-observer view update of the SWAP branch (game.py:255-273),
mirroring the source's sequential reads and writes (including the dict
aliasing when both targets name the same player).  When the observer IS a
swap target, the source subscripts `opponents_hands` with the other target's
name, which raises KeyError when the two targets coincide. -/
def swapViewStep (a : Nat) (i : Int) (b : Nat) (j : Int) (q : Nat)
    (v : PView) : Except Err PView :=
  if q = a then do
    let tmp ← pyGet v.hand i
    let lb ← getOpp v b
    let xb ← pyGet lb j
    let hand₁ ← pySet v.hand i xb
    let lb₁ ← pySet lb j tmp
    Except.ok { v with hand := hand₁, oppHands := v.oppHands.set b (some lb₁) }
  else if q = b then do
    let tmp ← pyGet v.hand j
    let la ← getOpp v a
    let xa ← pyGet la i
    let hand₁ ← pySet v.hand j xa
    let la₁ ← pySet la i tmp
    Except.ok { v with hand := hand₁, oppHands := v.oppHands.set a (some la₁) }
  else do
    let la ← getOpp v a
    let tmp ← pyGet la i
    let lb ← getOpp v b
    let xb ← pyGet lb j
    let la₁ ← pySet la i xb
    let v₁ := setOpp v a la₁
    let lb₁ ← getOpp v₁ b
    let lb₂ ← pySet lb₁ j tmp
    Except.ok (setOpp v₁ b lb₂)

/-- Game.apply_effect (game.py:232-283).  DRAW penalizes the target; SHUFFLE
permutes the target's true hand and wipes the target's own-hand knowledge;
SWAP exchanges two true-hand cards and updates every observer's knowledge;
PEEK teaches the acting player one card.  A NONE effect falls through with no
action.  Ill-shaped decision payloads fail the source's tuple unpacking and
are modelled as TypeError (no theorem exercises them). -/
def applyEffect (shuffle : List Card → List Card) (s : GameState)
    (actor : Nat) (e : Effect) (dec : Decision) : Except Err GameState :=
  match e, dec with
  | Effect.draw, Decision.nameDec t => do
    let t₁ ← getPlayerByName s t
    penalize shuffle s t₁
  | Effect.shuffle, Decision.nameDec t => do
    let t₁ ← getPlayerByName s t
    let h ← geth s.hands t₁
    let v ← geth s.views t₁
    Except.ok
      { s with hands := s.hands.set t₁ (shuffle h)
               views := s.views.set t₁
                 { v with hand := List.replicate v.hand.length Option.none } }
  | Effect.swap, Decision.swapDec a i b j => do
    let a₁ ← getPlayerByName s a
    let b₁ ← getPlayerByName s b
    let ha ← geth s.hands a₁
    let card1 ← pyGet ha i
    let hb ← geth s.hands b₁
    let card2 ← pyGet hb j
    let ha₁ ← pySet ha i card2
    let hands₁ := s.hands.set a₁ ha₁
    let hb₁ ← geth hands₁ b₁
    let hb₂ ← pySet hb₁ j card1
    let hands₂ := hands₁.set b₁ hb₂
    let views₁ ← mapWithIndexM (swapViewStep a₁ i b₁ j) 0 s.views
    Except.ok { s with hands := hands₂, views := views₁ }
  | Effect.peek, Decision.peekDec t i => do
    let t₁ ← getPlayerByName s t
    let h ← geth s.hands t₁
    let c ← pyGet h i
    if t₁ = actor then learnCard s actor i c
    else learnOpponentCard s actor t₁ i c
  | Effect.none, _ => Except.ok s
  | _, _ => Except.error Err.typeError

/-- `sum(card.value() for card in hand)` (game.py:288). -/
def handValue (h : List Card) : Int :=
  (h.map fun c => (c.value : Int)).foldl (· + ·) 0

/-- `for i, _ in enumerate(self.players): self.view.scores[i] += scores[i]`
(game.py:299-300): bump the accumulated scores pointwise; IndexError when the
accumulated list is shorter than the players list. -/
def bumpLoop : List Int → List Int → Except Err (List Int)
  | vs, [] => Except.ok vs
  | [], _ :: _ => Except.error Err.indexError
  | v :: vs, r :: rs => do
    let tail ← bumpLoop vs rs
    Except.ok ((v + r) :: tail)

/-- Game.calculate_scores (game.py:285-300): raw per-hand values, pop the
caller's raw score, compare it with the minimum of the remaining scores
(`min` raises ValueError when the caller is alone), zero the caller's score
on a successful call or double it on a failed one, then add every round
score into the accumulated view scores. -/
def calculateScores (hands : List (List Card)) (caller : Int)
    (viewScores : List Int) : Except Err (List Int) := do
  let tmp := hands.map handValue
  let (callerScore, rest) ← pyPop tmp caller
  let minOpp ← pyMin rest
  let roundScores ←
    if callerScore < minOpp then pySet tmp caller 0
    else do
      let cur ← pyGet tmp caller
      pySet tmp caller (cur * 2)
  bumpLoop viewScores roundScores

/-- The part of Game.init_round (game.py:302-309) that completes: reset the
deck, deal into the (never-cleared) hands dict, and for each player reset
their view and reveal the `initially_known` positions of their own hand. -/
def initRoundCore (shuffle : List Card → List Card) (s : GameState) :
    Except Err GameState := do
  let d₁ := s.dealer.resetDeck shuffle
  let (d₂, hands₁) ← d₁.dealInitialHands s.hands
  let s₁ := { s with dealer := d₂, hands := hands₁ }
  (List.range (numPlayers s₁)).foldlM
    (fun st p => do
      let v₀ := viewReset (numPlayers st) d₂.handSize d₂.treasureSize p
      let st₁ := { st with views := st.views.set p v₀ }
      let idxs ← iterIndices st₁.initiallyKnown
      idxs.foldlM
        (fun st₂ i => do
          let h ← geth st₂.hands p
          let c ← pyGet h i
          learnCard st₂ p i c)
        st₁)
    s₁

/-- Game.init_round (game.py:302-314).  After the core completes, line 312
evaluates `self.round`, an attribute never assigned on Game (the round
counter lives on Game.View), so the method always ends in AttributeError. -/
def initRound (shuffle : List Card → List Card) (s : GameState) :
    Except Err GameState := do
  let _ ← initRoundCore shuffle s
  Except.error Err.attributeError

/-- The call-decision step of Game.play (game.py:113-129) for the acting
player's `decide_call` result `callIdx`: on a valid index with more than one
card in hand, discard it, register the caller and run the reactive phase; on
a valid index with a one-card hand, only announce (no discard, and
`caller_index` is NOT assigned); otherwise no call. -/
def callPhase (shuffle : List Card → List Card) (oracles : List Oracle)
    (s : GameState) (callIdx : Int) : Except Err GameState := do
  let actor := s.currentPlayerIndex
  let h ← geth s.hands actor
  if 0 ≤ callIdx ∧ callIdx < (h.length : Int) then
    if 1 < h.length then do
      let s₁ ← gameDiscard s actor Option.none (some callIdx)
      let s₂ := { s₁ with callerIndex := (s.currentPlayerIndex : Int) }
      allowDiscards shuffle oracles s₂
    else Except.ok s
  else Except.ok s

instance {ε α : Type} [DecidableEq ε] [DecidableEq α] :
    DecidableEq (Except ε α) := fun x y =>
  match x, y with
  | Except.ok a, Except.ok b =>
    if h : a = b then isTrue (by rw [h])
    else isFalse (fun hc => by cases hc; exact h rfl)
  | Except.error e, Except.error f =>
    if h : e = f then isTrue (by rw [h])
    else isFalse (fun hc => by cases hc; exact h rfl)
  | Except.ok _, Except.error _ => isFalse (fun hc => by cases hc)
  | Except.error _, Except.ok _ => isFalse (fun hc => by cases hc)

instance : Inhabited PView :=
  ⟨{ drawnCard := Option.none, hand := [], oppHands := [], treasure := [] }⟩

/-- The identity permutation, used to instantiate the abstracted
`random.shuffle` in concrete runs (a shuffle is free to return its input). -/
def idShuffle : List Card → List Card := fun l => l

/-- Observer `o`'s recorded knowledge about the card at position `k` of
player `p`'s hand: their own-hand knowledge when `o = p`, their
`opponents_hands` entry otherwise (`none` = unknown). -/
def know (s : GameState) (o p k : Nat) : Option Card :=
  match s.views[o]? with
  | Option.none => Option.none
  | some v =>
    if o = p then v.hand.getD k Option.none
    else
      match v.oppHands[p]? with
      | some (some l) => l.getD k Option.none
      | _ => Option.none

/-- The structural well-formedness the engine maintains between views and
true hands: one view per hand, own-hand knowledge as long as the true hand,
and an `opponents_hands` entry (of the right length) for every other
player. -/
def ViewsAligned (s : GameState) : Prop :=
  s.views.length = s.hands.length ∧
  ∀ q, q < s.views.length →
    (s.views.getD q default).hand.length = (s.hands.getD q []).length ∧
    (s.views.getD q default).oppHands.length = s.views.length ∧
    ∀ p, p < s.views.length → p ≠ q →
      ((s.views.getD q default).oppHands.getD p Option.none).map List.length =
        some (s.hands.getD p []).length

instance (s : GameState) : Decidable (ViewsAligned s) := by
  unfold ViewsAligned
  exact instDecidableAnd

/-- Ace of spades. -/
def cAS : Card := { suit := some Suit.spades, rank := Rank.ace }

/-- Two of hearts. -/
def cTwoH : Card := { suit := some Suit.hearts, rank := Rank.two }

/-- Three of clubs. -/
def cThreeC : Card := { suit := some Suit.clubs, rank := Rank.three }

/-- Four of diamonds. -/
def cFourD : Card := { suit := some Suit.diamonds, rank := Rank.four }

/-- The dealer part of Game.init_round (game.py:303-304): reset the deck and
deal into the game's hands dict — which init_round never clears. -/
def roundTrip (d : Dealer) (hands : List (List Card)) :
    Except Err (Dealer × List (List Card)) :=
  (d.resetDeck idShuffle).dealInitialHands hands

/-- Round 1 of a 2-player game with hand size 1 and no treasure. -/
def c1Round1 : Except Err (Dealer × List (List Card)) :=
  roundTrip (Dealer.init 1 0) [[], []]

/-- Round 2: the engine resets the deck and deals again while both players
still hold their round-1 cards. -/
def c1Round2 : Except Err (Dealer × List (List Card)) := do
  let (d₁, h₁) ← c1Round1
  roundTrip d₁ h₁

/-- The conserved card count of a dealer/hands trace, when it completed. -/
def traceTotal : Except Err (Dealer × List (List Card)) → Option Nat
  | Except.ok (d, h) => some (totalCards d h Option.none)
  | Except.error _ => Option.none

/-- A fresh 2-player game (hand size 1, no treasure) before any round, with
an iterable `initially_known` so that the reveal loop is a no-op. -/
def g10 : GameState :=
  { dealer := Dealer.init 1 0
    hands := [[], []]
    views := [viewReset 2 1 0 0, viewReset 2 1 0 1]
    effectsQueue := []
    currentPlayerIndex := 0
    callerIndex := -1
    scores := [0, 0]
    round := 0
    initiallyKnown := IK.listConfig [] }

/-- Two consecutive round starts (the completing part of init_round). -/
def c10Trace : Except Err GameState := do
  let s₁ ← initRoundCore idShuffle g10
  initRoundCore idShuffle s₁

/-- Report (true hand length of player 0, player 0's own-hand view length,
player 1's view length for player 0's hand) of a completed trace. -/
def lengthReport : Except Err GameState → Option (Nat × Nat × Nat)
  | Except.ok s =>
    match s.hands, s.views with
    | h₀ :: _, v₀ :: v₁ :: _ =>
      some (h₀.length, v₀.hand.length,
        match v₁.oppHands[0]? with
        | some (some l) => l.length
        | _ => 0)
    | _, _ => Option.none
  | Except.error _ => Option.none

/-- The same fresh game configured with the constructor's actual default
`initially_known = 2` (an `int`). -/
def g7 : GameState := { g10 with initiallyKnown := IK.intConfig 2 }

/-- A 2-player position where the acting player 0 holds a single card and
decides to call. -/
def g8 : GameState :=
  { dealer := Dealer.init 1 0
    hands := [[cAS], [cTwoH, cThreeC]]
    views := [viewReset 2 1 0 0, viewReset 2 1 0 1]
    effectsQueue := []
    currentPlayerIndex := 0
    callerIndex := -1
    scores := [0, 0]
    round := 0
    initiallyKnown := IK.listConfig [] }

/-- A small dealer whose discard-pile top is the ace of spades, with a fresh
view. -/
def d2 : Dealer :=
  { handSize := 1
    treasureSize := 0
    drawPile := [cThreeC, cFourD]
    discardPile := [cAS]
    treasure := []
    viewDrawPileSize := 2
    viewDiscardPile := [cAS]
    viewAliased := true }

/-- A position where player 0's only card equals the discard-pile top, so a
declared reactive discard of it matches. -/
def g2 : GameState :=
  { dealer := d2
    hands := [[cAS], [cTwoH]]
    views := [viewReset 2 1 0 0, viewReset 2 1 0 1]
    effectsQueue := []
    currentPlayerIndex := 0
    callerIndex := -1
    scores := [0, 0]
    round := 0
    initiallyKnown := IK.listConfig [] }

/-- Take the first valid candidate (a weighted random pick is free to return
any of them). -/
def pickHead : List (Nat × Int) → Nat × Int := fun l => l.headD (0, 0)

/-- One reactive batch: player 0 declares index 0, player 1 declines. -/
def o2 : Oracle := { decls := [0, -1], pick := pickHead }

/-- A 2-player game used for the SWAP claim: distinct known hands and
freshly aligned views. -/
def g3 : GameState :=
  { dealer := Dealer.init 2 0
    hands := [[cAS, cTwoH], [cThreeC, cFourD]]
    views := [viewReset 2 2 0 0, viewReset 2 2 0 1]
    effectsQueue := []
    currentPlayerIndex := 0
    callerIndex := -1
    scores := [0, 0]
    round := 0
    initiallyKnown := IK.listConfig [] }

/-- A dealer with an exhausted draw pile and a two-card discard pile, with a
freshly updated view. -/
def d9 : Dealer :=
  { handSize := 5
    treasureSize := 3
    drawPile := []
    discardPile := [cAS, cTwoH]
    treasure := []
    viewDrawPileSize := 0
    viewDiscardPile := [cAS, cTwoH]
    viewAliased := true }

/-- A dealer with an exhausted draw pile and a singleton discard pile. -/
def d6 : Dealer :=
  { handSize := 5
    treasureSize := 3
    drawPile := []
    discardPile := [cAS]
    treasure := []
    viewDrawPileSize := 0
    viewDiscardPile := [cAS]
    viewAliased := true }

/-- Five of spades. -/
def cFiveS : Card := { suit := some Suit.spades, rank := Rank.five }

/-- A 2-player dealer (hand size 2, no treasure) with a five-card known draw
pile, used to witness the round-robin deal order. -/
def d5w : Dealer :=
  { handSize := 2
    treasureSize := 0
    drawPile := [cFiveS, cFourD, cThreeC, cTwoH, cAS]
    discardPile := []
    treasure := []
    viewDrawPileSize := 5
    viewDiscardPile := []
    viewAliased := true }

/-- Total read of a view's opponent entry (meaningful when the entry is
present, as alignment guarantees). -/
def oppD (v : PView) (p : Nat) : List (Option Card) :=
  (v.oppHands.getD p Option.none).getD []

/-- What `swapViewStep` computes when every lookup succeeds: the pure
per-observer knowledge exchange of the SWAP effect. -/
def swapViewPure (a i b j q : Nat) (v : PView) : PView :=
  if q = a then
    { v with hand := v.hand.set i ((oppD v b).getD j Option.none)
             oppHands := v.oppHands.set b
               (some ((oppD v b).set j (v.hand.getD i Option.none))) }
  else if q = b then
    { v with hand := v.hand.set j ((oppD v a).getD i Option.none)
             oppHands := v.oppHands.set a
               (some ((oppD v a).set i (v.hand.getD j Option.none))) }
  else
    { v with oppHands := ((v.oppHands.set a (some ((oppD v a).set i ((oppD v b).getD j Option.none)))).set b (some ((oppD v b).set j ((oppD v a).getD i Option.none)))) }

/-! ## Theorems -/

/-- Bind of a successful `Except` computation. -/
theorem except_bind_ok {ε α β : Type} (a : α) (f : α → Except ε β) :
    (Except.ok a >>= f) = f a := rfl

/-- `pyNorm` on an in-range natural index. -/
theorem pyNorm_natCast {len i : Nat} (h : i < len) :
    pyNorm len (i : Int) = Except.ok i := by
  unfold pyNorm
  simp only []
  rw [if_neg (by omega : ¬ ((i : Int) < 0))]
  rw [if_pos (by constructor <;> omega)]
  simp

/-- `geth` on an in-range index. -/
theorem geth_ok {α : Type} {l : List α} {i : Nat} (h : i < l.length) :
    geth l i = Except.ok (l[i]) := by
  unfold geth
  rw [List.getElem?_eq_getElem h]

/-- `pyGet` on an in-range natural index. -/
theorem pyGet_natCast {α : Type} {l : List α} {i : Nat} (h : i < l.length) :
    pyGet l (i : Int) = Except.ok (l[i]) := by
  unfold pyGet
  rw [pyNorm_natCast h, except_bind_ok, geth_ok h]

/-- `pySet` on an in-range natural index. -/
theorem pySet_natCast {α : Type} {l : List α} {i : Nat} (h : i < l.length)
    (x : α) : pySet l (i : Int) x = Except.ok (l.set i x) := by
  unfold pySet
  rw [pyNorm_natCast h, except_bind_ok]

/-- `pyPop` on an in-range natural index. -/
theorem pyPop_natCast {α : Type} {l : List α} {i : Nat} (h : i < l.length) :
    pyPop l (i : Int) = Except.ok (l[i], l.eraseIdx i) := by
  unfold pyPop
  rw [pyNorm_natCast h, except_bind_ok, geth_ok h, except_bind_ok]

/-- A monadic indexed map whose every step succeeds computes the pure
indexed map. -/
theorem mapWithIndexM_ok {α β : Type} {f : Nat → α → Except Err β}
    {g : Nat → α → β} :
    ∀ (l : List α) (k : Nat),
      (∀ m (hm : m < l.length), f (k + m) (l[m]) = Except.ok (g (k + m) (l[m]))) →
      mapWithIndexM f k l = Except.ok (mapWithIndexPure g k l)
  | [], _, _ => rfl
  | x :: xs, k, h => by
    have h0 := h 0 (by simp)
    simp only [Nat.add_zero, List.getElem_cons_zero] at h0
    unfold mapWithIndexM
    rw [h0, except_bind_ok]
    rw [mapWithIndexM_ok xs (k + 1) (fun m hm => by
      have h' := h (m + 1) (by simpa using Nat.succ_lt_succ hm)
      rw [show k + (m + 1) = k + 1 + m by omega] at h'
      simpa using h')]
    rw [except_bind_ok]
    rfl

/-- Length of the pure indexed map. -/
theorem mapWithIndexPure_length {α β : Type} (g : Nat → α → β) :
    ∀ (k : Nat) (l : List α), (mapWithIndexPure g k l).length = l.length
  | _, [] => rfl
  | k, _ :: xs => by
    unfold mapWithIndexPure
    simp [mapWithIndexPure_length g (k + 1) xs]

/-- Elements of the pure indexed map. -/
theorem mapWithIndexPure_getElem? {α β : Type} (g : Nat → α → β) :
    ∀ (k m : Nat) (l : List α),
      (mapWithIndexPure g k l)[m]? = (l[m]?).map (g (k + m))
  | _, _, [] => by simp [mapWithIndexPure]
  | k, 0, x :: xs => by simp [mapWithIndexPure]
  | k, m + 1, x :: xs => by
    unfold mapWithIndexPure
    simp only [List.getElem?_cons_succ]
    rw [mapWithIndexPure_getElem? g (k + 1) m xs]
    rw [show k + 1 + m = k + (m + 1) by omega]

/-- C1: pile conservation fails on the code.  After the first round's
reset-and-deal the 54-card invariant holds (total 54), but `init_round`
never clears the hands dict (its own unit test's comment says it should),
so the second round's reset rebuilds a full 54-card draw pile while both
players still hold their round-1 cards, and after the round-2 deal — a
completed "dealing" operation — the trace counts 56 cards, not 54. -/
theorem pile_conservation_broken_in_round_two :
    traceTotal c1Round1 = some 54 ∧ traceTotal c1Round2 = some 56 := by
  decide

/-- C2: in the reactive-discard phase, when the weighted-randomly chosen
declaring player's card at the declared index equals the discard-pile top,
the code does NOT discard that card: game.py:227 calls
`self.discard(p, idx)` positionally, binding the integer index to the
`card` parameter, so the hand is left untouched, the raw integer is pushed
on the discard pile, and evaluating `.effect` on it raises AttributeError. -/
theorem allow_discards_matching_attribute_error :
    allowDiscards idShuffle [o2] g2 = Except.error Err.attributeError := by
  decide

/-- C6 counterexample: reshuffling with a singleton discard pile does not
leave the discard pile empty (the claim's "empty in the empty/singleton
cases"): the lone card is held aside and the discard pile stays `[c]`. -/
theorem reshuffle_singleton_discard_not_emptied :
    (d6.reshuffleDiscardIntoDraw idShuffle).discardPile = [cAS] ∧
    (d6.reshuffleDiscardIntoDraw idShuffle).discardPile ≠ [] := by
  decide

/-- C7: with the constructor's annotated default `initially_known = 2` (an
integer), `init_round` raises TypeError at `for i in self.initially_known`
(game.py:308) instead of revealing hand indices 0 and 1. -/
theorem init_round_int_initially_known_type_error :
    initRound idShuffle g7 = Except.error Err.typeError := by
  decide

/-- C8: when the acting player holds exactly one card and `decide_call`
returns the valid index 0, the call step returns the state unchanged: no
discard happens (as claimed), but `caller_index` is also left at -1, so the
call is NOT registered and the round-end final lap never starts. -/
theorem call_with_one_card_not_registered :
    callPhase idShuffle [] g8 0 = Except.ok g8 ∧ g8.callerIndex = -1 := by
  decide

/-- C9 counterexample: `reshuffle_discard_into_draw` is a mutating Dealer
operation after which the public view is stale — the view still reports the
pre-reshuffle draw-pile size and the popped old discard list. -/
theorem reshuffle_view_stale :
    ∃ d', runOp idShuffle DealerOp.reshuffle d9 = Except.ok d' ∧
      ¬ ViewFresh d' := by
  refine ⟨_, rfl, ?_⟩
  decide

/-- C10: after the first round start the view lengths match the true hand
lengths (1,1,1), but the second round start resets every view to the
configured hand size while dealing on top of the never-cleared hands, so
player 0's true hand has length 2 while both their own view and player 1's
view of that hand have length 1. -/
theorem view_length_desync_round_two :
    lengthReport (initRoundCore idShuffle g10) = some (1, 1, 1) ∧
    lengthReport c10Trace = some (2, 1, 1) := by
  decide

/-- ViewFresh holds after any `view.update`. -/
theorem viewFresh_viewUpdate (d : Dealer) : ViewFresh (Dealer.viewUpdate d) := by
  simp [ViewFresh, Dealer.viewUpdate]

/-- Inverting `Except.map` on a successful result. -/
theorem except_map_ok {ε α β : Type} {f : α → β} {x : Except ε α} {y : β}
    (h : x.map f = Except.ok y) : ∃ a, x = Except.ok a ∧ y = f a := by
  cases x with
  | ok a =>
    refine ⟨a, rfl, ?_⟩
    simpa [Except.map] using h.symm
  | error e => simp [Except.map] at h

/-- A successful deal ends in a `view.update`. -/
theorem viewFresh_dealInitialHands {d : Dealer} {hands : List (List Card)}
    {out : Dealer × List (List Card)}
    (h : d.dealInitialHands hands = Except.ok out) : ViewFresh out.1 := by
  unfold Dealer.dealInitialHands at h
  split at h
  · cases h
  · split at h
    · cases h
    · split at h
      · cases h
      · split at h
        · cases h
        · cases h
          exact viewFresh_viewUpdate _

/-- A successful draw from the draw pile ends in a `view.update`. -/
theorem viewFresh_drawFromDraw {shuffle : List Card → List Card} {d : Dealer}
    {out : Card × Dealer} (h : d.drawFromDraw shuffle = Except.ok out) :
    ViewFresh out.2 := by
  unfold Dealer.drawFromDraw at h
  split at h
  all_goals simp only [] at h
  · split at h
    · cases h
      exact viewFresh_viewUpdate _
    · cases h
  · split at h
    · cases h
      exact viewFresh_viewUpdate _
    · cases h

/-- A successful draw from the discard pile ends in a `view.update`. -/
theorem viewFresh_drawFromDiscard {d : Dealer} {out : Card × Dealer}
    (h : d.drawFromDiscard = Except.ok out) : ViewFresh out.2 := by
  unfold Dealer.drawFromDiscard at h
  split at h
  · cases h
    exact viewFresh_viewUpdate _
  · cases h

/-- C9 (amended): every mutating Dealer operation EXCEPT
`reshuffle_discard_into_draw` refreshes the public view synchronously before
returning; the reshuffle leaves the view stale and is only invoked inside
`draw_from_draw`, which refreshes afterwards. -/
theorem dealer_view_fresh_except_reshuffle (shuffle : List Card → List Card)
    (op : DealerOp) (d d' : Dealer) (hop : op ≠ DealerOp.reshuffle)
    (h : runOp shuffle op d = Except.ok d') : ViewFresh d' := by
  cases op with
  | reset =>
    simp only [runOp, Dealer.resetDeck, Except.ok.injEq] at h
    exact h ▸ viewFresh_viewUpdate _
  | deal hands =>
    obtain ⟨a, ha, rfl⟩ := except_map_ok h
    exact viewFresh_dealInitialHands ha
  | reshuffle => exact absurd rfl hop
  | drawDraw =>
    obtain ⟨a, ha, rfl⟩ := except_map_ok h
    exact viewFresh_drawFromDraw ha
  | drawDiscard =>
    obtain ⟨a, ha, rfl⟩ := except_map_ok h
    exact viewFresh_drawFromDiscard ha
  | disc c =>
    simp only [runOp, Dealer.discard, Except.ok.injEq] at h
    exact h ▸ viewFresh_viewUpdate _

/-- C9 witness: a concrete non-reshuffle operation (a discard) leaves a
fresh view. -/
theorem dealer_view_fresh_witness : ViewFresh ((Dealer.init 1 0).discard cAS) :=
  dealer_view_fresh_except_reshuffle idShuffle (DealerOp.disc cAS)
    (Dealer.init 1 0) ((Dealer.init 1 0).discard cAS) (by decide) rfl

/-- C6 (amended): with an empty draw pile and discard pile `[c1, …, ck]`
(`ck` = top), the reshuffle makes the draw pile a permutation of
`{c1, …, c(k-1)}` (the held-aside top is never reshuffled) and the discard
pile exactly `[ck]`; the discard pile ends up empty only when it was
already empty — a singleton discard pile stays `[c1]`, it is not emptied. -/
theorem reshuffle_spec (shuffle : List Card → List Card)
    (hperm : ∀ l, (shuffle l).Perm l) (d : Dealer)
    (_hdraw : d.drawPile = []) :
    (d.discardPile = [] →
      (d.reshuffleDiscardIntoDraw shuffle).drawPile = [] ∧
      (d.reshuffleDiscardIntoDraw shuffle).discardPile = []) ∧
    (∀ xs t, d.discardPile = xs ++ [t] →
      ((d.reshuffleDiscardIntoDraw shuffle).drawPile).Perm xs ∧
      (d.reshuffleDiscardIntoDraw shuffle).discardPile = [t]) ∧
    ((d.reshuffleDiscardIntoDraw shuffle).discardPile = [] →
      d.discardPile = []) := by
  refine ⟨?_, ?_, ?_⟩
  · intro h0
    refine ⟨?_, ?_⟩
    · have e : (d.reshuffleDiscardIntoDraw shuffle).drawPile = shuffle [] := by
        simp [Dealer.reshuffleDiscardIntoDraw, h0]
      rw [e]
      exact (hperm []).eq_nil
    · simp [Dealer.reshuffleDiscardIntoDraw, h0]
  · intro xs t hx
    refine ⟨?_, ?_⟩
    · have e : (d.reshuffleDiscardIntoDraw shuffle).drawPile = shuffle xs := by
        simp [Dealer.reshuffleDiscardIntoDraw, hx]
      rw [e]
      exact hperm xs
    · simp [Dealer.reshuffleDiscardIntoDraw, hx]
  · intro hres
    rcases List.eq_nil_or_concat d.discardPile with h0 | ⟨xs, t, hx⟩
    · exact h0
    · exfalso
      have e : (d.reshuffleDiscardIntoDraw shuffle).discardPile = [t] := by
        simp [Dealer.reshuffleDiscardIntoDraw, hx]
      rw [e] at hres
      exact List.cons_ne_nil t [] hres

/-- C6 witness: reshuffling a dealer with discard pile `[c1, c2]` leaves a
draw pile that is a permutation of `[c1]` and the discard pile `[c2]`. -/
theorem reshuffle_spec_witness :
    ((d9.reshuffleDiscardIntoDraw idShuffle).drawPile).Perm [cAS] ∧
    (d9.reshuffleDiscardIntoDraw idShuffle).discardPile = [cTwoH] :=
  (reshuffle_spec idShuffle (fun l => List.Perm.refl l) d9 rfl).2.1 [cAS] cTwoH rfl

/-- In an aligned state, a view's own-hand knowledge has the true hand's
length. -/
theorem aligned_hand_len {s : GameState} (hal : ViewsAligned s) {q : Nat}
    (hq : q < s.views.length) :
    (s.views[q]).hand.length = (s.hands.getD q []).length := by
  obtain ⟨_, hview⟩ := hal
  have h := (hview q hq).1
  have hv : s.views.getD q default = s.views[q] := by
    simp [List.getD_eq_getElem?_getD, List.getElem?_eq_getElem hq]
  rwa [hv] at h

/-- In an aligned state, a view's opponent entry for every other player is
present and has the true hand's length. -/
theorem aligned_opp_entry {s : GameState} (hal : ViewsAligned s) {q p : Nat}
    (hq : q < s.views.length) (hp : p < s.views.length) (hpq : p ≠ q) :
    ∃ l, (s.views[q]).oppHands[p]? = some (some l) ∧
      l.length = (s.hands.getD p []).length := by
  obtain ⟨_, hview⟩ := hal
  obtain ⟨_, hopplen, hentries⟩ := hview q hq
  have hv : s.views.getD q default = s.views[q] := by
    simp [List.getD_eq_getElem?_getD, List.getElem?_eq_getElem hq]
  rw [hv] at hopplen hentries
  have hmap := hentries p hp hpq
  have hplen : p < (s.views[q]).oppHands.length := by
    rw [hopplen]; exact hp
  have e : (s.views[q]).oppHands.getD p Option.none =
      (s.views[q]).oppHands[p] := by
    simp [List.getD_eq_getElem?_getD, List.getElem?_eq_getElem hplen]
  rw [e] at hmap
  cases hentry : (s.views[q]).oppHands[p] with
  | none => rw [hentry] at hmap; simp at hmap
  | some l =>
    rw [hentry] at hmap
    simp at hmap
    exact ⟨l, by rw [List.getElem?_eq_getElem hplen, hentry], by simpa using hmap⟩

/-- The monadic per-observer SWAP view update computes its pure counterpart
whenever the targets are distinct and the needed entries are present and in
range. -/
theorem swapViewStep_eq_pure {a b i j : Nat} (q : Nat) (v : PView)
    (hab : a ≠ b)
    (hca : q = a → i < v.hand.length ∧
      ∃ lb, v.oppHands[b]? = some (some lb) ∧ j < lb.length)
    (hcb : q = b → j < v.hand.length ∧
      ∃ la, v.oppHands[a]? = some (some la) ∧ i < la.length)
    (hco : q ≠ a → q ≠ b →
      (∃ la, v.oppHands[a]? = some (some la) ∧ i < la.length) ∧
      (∃ lb, v.oppHands[b]? = some (some lb) ∧ j < lb.length)) :
    swapViewStep a (i : Int) b (j : Int) q v =
      Except.ok (swapViewPure a i b j q v) := by
  by_cases hqa : q = a
  · obtain ⟨hi, lb, hlb, hj⟩ := hca hqa
    subst hqa
    unfold swapViewStep swapViewPure
    rw [if_pos rfl, if_pos rfl]
    have hopp : getOpp v b = Except.ok lb := by unfold getOpp; rw [hlb]
    have hoppD : oppD v b = lb := by simp [oppD, hlb]
    have e1 : v.hand.getD i Option.none = v.hand[i] := by
      simp [List.getD_eq_getElem?_getD, List.getElem?_eq_getElem hi]
    have e2 : lb.getD j Option.none = lb[j] := by
      simp [List.getD_eq_getElem?_getD, List.getElem?_eq_getElem hj]
    rw [pyGet_natCast hi, except_bind_ok, hopp, except_bind_ok,
        pyGet_natCast hj, except_bind_ok, pySet_natCast hi _, except_bind_ok,
        pySet_natCast hj _, except_bind_ok, hoppD, e1, e2]
  · by_cases hqb : q = b
    · obtain ⟨hj, la, hla, hi⟩ := hcb hqb
      subst hqb
      unfold swapViewStep swapViewPure
      rw [if_neg hqa, if_pos rfl, if_neg hqa, if_pos rfl]
      have hopp : getOpp v a = Except.ok la := by unfold getOpp; rw [hla]
      have hoppD : oppD v a = la := by simp [oppD, hla]
      have e1 : v.hand.getD j Option.none = v.hand[j] := by
        simp [List.getD_eq_getElem?_getD, List.getElem?_eq_getElem hj]
      have e2 : la.getD i Option.none = la[i] := by
        simp [List.getD_eq_getElem?_getD, List.getElem?_eq_getElem hi]
      rw [pyGet_natCast hj, except_bind_ok, hopp, except_bind_ok,
          pyGet_natCast hi, except_bind_ok, pySet_natCast hj _, except_bind_ok,
          pySet_natCast hi _, except_bind_ok, hoppD, e1, e2]
    · obtain ⟨⟨la, hla, hi⟩, ⟨lb, hlb, hj⟩⟩ := hco hqa hqb
      unfold swapViewStep swapViewPure
      rw [if_neg hqa, if_neg hqb, if_neg hqa, if_neg hqb]
      have hoppa : getOpp v a = Except.ok la := by unfold getOpp; rw [hla]
      have hoppb : getOpp v b = Except.ok lb := by unfold getOpp; rw [hlb]
      have hoppaD : oppD v a = la := by simp [oppD, hla]
      have hoppbD : oppD v b = lb := by simp [oppD, hlb]
      have e1 : la.getD i Option.none = la[i] := by
        simp [List.getD_eq_getElem?_getD, List.getElem?_eq_getElem hi]
      have e2 : lb.getD j Option.none = lb[j] := by
        simp [List.getD_eq_getElem?_getD, List.getElem?_eq_getElem hj]
      have hoppb1 : getOpp (setOpp v a (la.set i (lb[j]))) b =
          Except.ok lb := by
        unfold getOpp setOpp
        rw [List.getElem?_set_ne hab, hlb]
      rw [hoppa, except_bind_ok, pyGet_natCast hi, except_bind_ok,
          hoppb, except_bind_ok, pyGet_natCast hj, except_bind_ok,
          pySet_natCast hi _, except_bind_ok]
      simp only []
      rw [hoppb1, except_bind_ok, pySet_natCast hj _, except_bind_ok,
          hoppaD, hoppbD, e1, e2]
      rfl

/-- `getD` of a `set` at the written position. -/
theorem getD_set_self {α : Type} {l : List α} {n : Nat} (h : n < l.length)
    (x d : α) : (l.set n x).getD n d = x := by
  simp [List.getD_eq_getElem?_getD, List.getElem?_set_self h]

/-- Unfolding `know` through a known view. -/
theorem know_of_view {s : GameState} {o : Nat} {v : PView}
    (hv : s.views[o]? = some v) (p k : Nat) :
    know s o p k =
      if o = p then v.hand.getD k Option.none
      else
        match v.oppHands[p]? with
        | some (some l) => l.getD k Option.none
        | _ => Option.none := by
  unfold know
  rw [hv]

/-- In an aligned state, each view has one opponents entry per player. -/
theorem aligned_opp_len {s : GameState} (hal : ViewsAligned s) {q : Nat}
    (hq : q < s.views.length) :
    (s.views[q]).oppHands.length = s.views.length := by
  obtain ⟨_, hview⟩ := hal
  have h := (hview q hq).2.1
  have hv : s.views.getD q default = s.views[q] := by
    simp [List.getD_eq_getElem?_getD, List.getElem?_eq_getElem hq]
  rwa [hv] at h

/-- After the SWAP view pass, every observer's knowledge entries for the two
swapped positions are exchanged. -/
theorem know_after_swap (s s₁ : GameState) (a b i j : Nat) (hab : a ≠ b)
    (ha : a < s.views.length) (hb : b < s.views.length) (hal : ViewsAligned s)
    (hi : i < (s.hands.getD a []).length)
    (hj : j < (s.hands.getD b []).length)
    (hviews : s₁.views = mapWithIndexPure (swapViewPure a i b j) 0 s.views) :
    ∀ o, o < s.views.length →
      know s₁ o a i = know s o b j ∧ know s₁ o b j = know s o a i := by
  intro o ho
  have hvo : s.views[o]? = some (s.views[o]) := List.getElem?_eq_getElem ho
  have hv1 : s₁.views[o]? =
      some (swapViewPure a i b j o (s.views[o])) := by
    rw [hviews, mapWithIndexPure_getElem?, Nat.zero_add, hvo]
    rfl
  by_cases hoa : o = a
  · subst hoa
    obtain ⟨lb, hlb, hlb2⟩ := aligned_opp_entry hal ho hb (Ne.symm hab)
    have hvhand : i < (s.views[o]).hand.length := by
      rw [aligned_hand_len hal ho]; exact hi
    have hboD : oppD (s.views[o]) b = lb := by simp [oppD, hlb]
    have hjlb : j < lb.length := by rw [hlb2]; exact hj
    constructor
    · rw [know_of_view hv1, know_of_view hvo]
      rw [if_pos rfl, if_neg hab]
      unfold swapViewPure
      rw [if_pos rfl]
      simp only []
      rw [getD_set_self hvhand, hboD, hlb]
    · rw [know_of_view hv1, know_of_view hvo]
      rw [if_neg hab, if_pos rfl]
      unfold swapViewPure
      rw [if_pos rfl]
      simp only []
      rw [List.getElem?_set_self
        (by rw [aligned_opp_len hal ho]; exact hb :
          b < (s.views[o]).oppHands.length)]
      rw [hboD]
      simp only []
      rw [getD_set_self hjlb]
  · by_cases hob : o = b
    · subst hob
      obtain ⟨la, hla, hla2⟩ := aligned_opp_entry hal ho ha hab
      have hvhand : j < (s.views[o]).hand.length := by
        rw [aligned_hand_len hal ho]; exact hj
      have haD : oppD (s.views[o]) a = la := by simp [oppD, hla]
      have hila : i < la.length := by rw [hla2]; exact hi
      constructor
      · rw [know_of_view hv1, know_of_view hvo]
        rw [if_neg hoa, if_pos rfl]
        unfold swapViewPure
        rw [if_neg hoa, if_pos rfl]
        simp only []
        rw [List.getElem?_set_self
          (by rw [aligned_opp_len hal ho]; exact ha :
            a < (s.views[o]).oppHands.length)]
        simp only []
        rw [haD, getD_set_self hila]
      · rw [know_of_view hv1, know_of_view hvo]
        rw [if_pos rfl, if_neg hoa]
        unfold swapViewPure
        rw [if_neg hoa, if_pos rfl]
        simp only []
        rw [getD_set_self hvhand, haD, hla]
    · obtain ⟨la, hla, hla2⟩ := aligned_opp_entry hal ho ha (Ne.symm hoa)
      obtain ⟨lb, hlb, hlb2⟩ := aligned_opp_entry hal ho hb (Ne.symm hob)
      have haD : oppD (s.views[o]) a = la := by simp [oppD, hla]
      have hbD : oppD (s.views[o]) b = lb := by simp [oppD, hlb]
      have hila : i < la.length := by rw [hla2]; exact hi
      have hjlb : j < lb.length := by rw [hlb2]; exact hj
      have hal' : a < (s.views[o]).oppHands.length := by
        rw [aligned_opp_len hal ho]; exact ha
      have hbl' : b < (s.views[o]).oppHands.length := by
        rw [aligned_opp_len hal ho]; exact hb
      constructor
      · rw [know_of_view hv1, know_of_view hvo]
        rw [if_neg hoa, if_neg hob]
        unfold swapViewPure
        rw [if_neg hoa, if_neg hob]
        simp only []
        rw [List.getElem?_set_ne (Ne.symm hab), List.getElem?_set_self hal']
        simp only []
        rw [haD, hbD, getD_set_self hila, hlb]
      · rw [know_of_view hv1, know_of_view hvo]
        rw [if_neg hob, if_neg hoa]
        unfold swapViewPure
        rw [if_neg hoa, if_neg hob]
        simp only []
        rw [List.getElem?_set_self (by simpa using hbl')]
        simp only []
        rw [haD, hbD, getD_set_self hjlb, hla]

/-- C3 counterexample: a SWAP decision naming the same player twice — a
decision the bundled RandomStrategy produces whenever both of its
independent target choices pick the same opponent — does not apply: the
observer loop subscripts that player's own `opponents_hands` with their own
(absent) name and raises KeyError, although both indices are in range. -/
theorem apply_effect_swap_self_key_error :
    applyEffect idShuffle g3 0 Effect.swap (Decision.swapDec 1 0 1 1) =
      Except.error Err.keyError := by
  decide

/-- C3 (amended): for every SWAP decision (playerA, idxA, playerB, idxB)
with DISTINCT target players and in-range indices, applied in a state whose
views are aligned with the true hands, the effect succeeds, the two
true-hand cards are exchanged, and every observer's recorded knowledge at
(playerA, idxA) and (playerB, idxB) is exchanged — knowledge follows the
physical card.  When the two decision players coincide the code instead
raises KeyError (see the counterexample). -/
theorem apply_effect_swap_distinct (shuffle : List Card → List Card)
    (s : GameState) (act a b i j : Nat)
    (hab : a ≠ b) (ha : a < numPlayers s) (hb : b < numPlayers s)
    (hal : ViewsAligned s)
    (hi : i < (s.hands.getD a []).length)
    (hj : j < (s.hands.getD b []).length) :
    ∃ s₁,
      applyEffect shuffle s act Effect.swap
        (Decision.swapDec a (i : Int) b (j : Int)) = Except.ok s₁ ∧
      (s₁.hands.getD a [])[i]? = (s.hands.getD b [])[j]? ∧
      (s₁.hands.getD b [])[j]? = (s.hands.getD a [])[i]? ∧
      ∀ o, o < numPlayers s →
        know s₁ o a i = know s o b j ∧ know s₁ o b j = know s o a i := by
  have hlen : s.views.length = s.hands.length := hal.1
  have ha' : a < s.hands.length := hlen ▸ ha
  have hb' : b < s.hands.length := hlen ▸ hb
  have hgda : s.hands.getD a [] = s.hands[a] := by
    simp [List.getD_eq_getElem?_getD, List.getElem?_eq_getElem ha']
  have hgdb : s.hands.getD b [] = s.hands[b] := by
    simp [List.getD_eq_getElem?_getD, List.getElem?_eq_getElem hb']
  have hia : i < (s.hands[a]).length := by rw [← hgda]; exact hi
  have hjb : j < (s.hands[b]).length := by rw [← hgdb]; exact hj
  refine ⟨{ s with
      hands := (s.hands.set a
          ((s.hands[a]).set i ((s.hands[b])[j]))).set b
        ((s.hands[b]).set j ((s.hands[a])[i]))
      views := mapWithIndexPure (swapViewPure a i b j) 0 s.views },
    ?_, ?_, ?_, ?_⟩
  · have hstep : ∀ m (hm : m < s.views.length),
        swapViewStep a (i : Int) b (j : Int) (0 + m) (s.views[m]) =
          Except.ok (swapViewPure a i b j (0 + m) (s.views[m])) := by
      intro m hm
      rw [Nat.zero_add]
      refine swapViewStep_eq_pure m (s.views[m]) hab ?_ ?_ ?_
      · intro hma
        subst hma
        refine ⟨by rw [aligned_hand_len hal hm]; exact hi, ?_⟩
        obtain ⟨lb, hlb, hlb2⟩ := aligned_opp_entry hal hm hb (Ne.symm hab)
        exact ⟨lb, hlb, by rw [hlb2]; exact hj⟩
      · intro hmb
        subst hmb
        refine ⟨by rw [aligned_hand_len hal hm]; exact hj, ?_⟩
        obtain ⟨la, hla, hla2⟩ := aligned_opp_entry hal hm ha hab
        exact ⟨la, hla, by rw [hla2]; exact hi⟩
      · intro hma hmb
        constructor
        · obtain ⟨la, hla, hla2⟩ := aligned_opp_entry hal hm ha (Ne.symm hma)
          exact ⟨la, hla, by rw [hla2]; exact hi⟩
        · obtain ⟨lb, hlb, hlb2⟩ := aligned_opp_entry hal hm hb (Ne.symm hmb)
          exact ⟨lb, hlb, by rw [hlb2]; exact hj⟩
    dsimp only [applyEffect, getPlayerByName]
    rw [if_pos ha, except_bind_ok, if_pos hb, except_bind_ok,
        geth_ok ha', except_bind_ok, pyGet_natCast hia, except_bind_ok,
        geth_ok hb', except_bind_ok, pyGet_natCast hjb, except_bind_ok,
        pySet_natCast hia _, except_bind_ok]
    have hgethb : geth (s.hands.set a
        ((s.hands[a]).set i ((s.hands[b])[j]))) b =
        Except.ok (s.hands[b]) := by
      unfold geth
      rw [List.getElem?_set_ne hab, List.getElem?_eq_getElem hb']
    rw [hgethb, except_bind_ok, pySet_natCast hjb _, except_bind_ok]
    rw [mapWithIndexM_ok s.views 0 hstep, except_bind_ok]
  · dsimp only []
    have h1 : ((s.hands.set a ((s.hands[a]).set i
        ((s.hands[b])[j]))).set b
        ((s.hands[b]).set j ((s.hands[a])[i]))).getD a [] =
        (s.hands[a]).set i ((s.hands[b])[j]) := by
      rw [List.getD_eq_getElem?_getD, List.getElem?_set_ne (Ne.symm hab),
          List.getElem?_set_self ha']
      rfl
    rw [h1, List.getElem?_set_self hia, hgdb, List.getElem?_eq_getElem hjb]
  · dsimp only []
    have h1 : ((s.hands.set a ((s.hands[a]).set i
        ((s.hands[b])[j]))).set b
        ((s.hands[b]).set j ((s.hands[a])[i]))).getD b [] =
        (s.hands[b]).set j ((s.hands[a])[i]) := by
      rw [List.getD_eq_getElem?_getD,
          List.getElem?_set_self (by simpa using hb')]
      rfl
    rw [h1, List.getElem?_set_self hjb, hgda, List.getElem?_eq_getElem hia]
  · exact know_after_swap s _ a b i j hab ha hb hal hi hj rfl

/-- C3 witness: a concrete distinct-player SWAP on an aligned 2-player state
succeeds with the cards and knowledge exchanged. -/
theorem apply_effect_swap_distinct_witness :
    ∃ s₁,
      applyEffect idShuffle g3 0 Effect.swap
        (Decision.swapDec 0 (0 : Int) 1 (1 : Int)) = Except.ok s₁ ∧
      (s₁.hands.getD 0 [])[0]? = (g3.hands.getD 1 [])[1]? ∧
      (s₁.hands.getD 1 [])[1]? = (g3.hands.getD 0 [])[0]? ∧
      ∀ o, o < numPlayers g3 →
        know s₁ o 0 0 = know g3 o 1 1 ∧ know s₁ o 1 1 = know g3 o 0 0 :=
  apply_effect_swap_distinct idShuffle g3 0 0 1 0 1 (by decide) (by decide)
    (by decide) (by decide) (by decide) (by decide)

/-- A left fold with `min` is a lower bound of the seed and all elements. -/
theorem foldl_min_le : ∀ (l : List Int) (x : Int),
    l.foldl min x ≤ x ∧ ∀ y ∈ l, l.foldl min x ≤ y
  | [], x => ⟨le_refl x, by simp⟩
  | z :: zs, x => by
    have ih := foldl_min_le zs (min x z)
    refine ⟨le_trans ih.1 (min_le_left x z), ?_⟩
    intro y hy
    rcases List.mem_cons.mp hy with rfl | hy'
    · exact le_trans ih.1 (min_le_right x y)
    · exact ih.2 y hy'

/-- A left fold with `min` is the seed or one of the elements. -/
theorem foldl_min_mem : ∀ (l : List Int) (x : Int),
    l.foldl min x = x ∨ l.foldl min x ∈ l
  | [], _ => Or.inl rfl
  | z :: zs, x => by
    have hrw : (z :: zs).foldl min x = zs.foldl min (min x z) := rfl
    rcases foldl_min_mem zs (min x z) with h | h
    · rcases le_total x z with hxz | hzx
      · exact Or.inl (by rw [hrw, h, min_eq_left hxz])
      · refine Or.inr ?_
        rw [hrw, h, min_eq_right hzx]
        exact List.mem_cons_self z zs
    · exact Or.inr (by rw [hrw]; exact List.mem_cons_of_mem z h)

/-- `min` of a nonempty list: a member that bounds every member below. -/
theorem pyMin_spec (x : Int) (xs : List Int) :
    ∃ m, pyMin (x :: xs) = Except.ok m ∧ m ∈ x :: xs ∧ ∀ y ∈ x :: xs, m ≤ y := by
  refine ⟨xs.foldl min x, rfl, ?_, ?_⟩
  · rcases foldl_min_mem xs x with h | h
    · rw [h]; exact List.mem_cons_self x xs
    · exact List.mem_cons_of_mem x h
  · intro y hy
    rcases List.mem_cons.mp hy with rfl | hy'
    · exact (foldl_min_le xs y).1
    · exact (foldl_min_le xs x).2 y hy'

/-- The score-accumulation loop on equal-length lists is a pointwise sum. -/
theorem bumpLoop_ok : ∀ (vs rs : List Int), vs.length = rs.length →
    bumpLoop vs rs = Except.ok (List.zipWith (· + ·) vs rs)
  | [], [], _ => rfl
  | [], _ :: _, h => by simp at h
  | _ :: _, [], h => by simp at h
  | v :: vs, r :: rs, h => by
    unfold bumpLoop
    rw [bumpLoop_ok vs rs (by simpa using h), except_bind_ok]
    rfl

/-- Pointwise value of a `zipWith (+)`. -/
theorem zipWith_add_getD : ∀ (vs rs : List Int) (k : Nat), k < vs.length →
    k < rs.length →
    (List.zipWith (· + ·) vs rs).getD k 0 = vs.getD k 0 + rs.getD k 0
  | [], _, _, h1, _ => absurd h1 (by simp)
  | _ :: _, [], _, _, h2 => absurd h2 (by simp)
  | v :: vs, r :: rs, 0, _, _ => by simp
  | v :: vs, r :: rs, k + 1, h1, h2 => by
    simpa using zipWith_add_getD vs rs k (by simpa using h1) (by simpa using h2)

/-- `getD` of a `set` at a different position. -/
theorem getD_set_ne {α : Type} {l : List α} {n k : Nat} (h : n ≠ k) (x d : α) :
    (l.set n x).getD k d = l.getD k d := by
  simp [List.getD_eq_getElem?_getD, List.getElem?_set_ne h]

/-- C4: scoring adjudication.  With at least two players and a valid caller
index, `calculate_scores` succeeds and adds to each accumulated score: the
raw hand value for every non-caller; for the caller, 0 when every other
player's raw score is strictly greater than the caller's, and twice the
caller's raw score otherwise. -/
theorem calculate_scores_adjudication (hands : List (List Card)) (c : Nat)
    (vs : List Int) (hc : c < hands.length) (h2 : 2 ≤ hands.length)
    (hlen : vs.length = hands.length) :
    ∃ out, calculateScores hands (c : Int) vs = Except.ok out ∧
      out.length = hands.length ∧
      ∀ k, k < hands.length →
        out.getD k 0 = vs.getD k 0 +
          (if k = c then
            (if ∀ q, q < hands.length → q ≠ c →
                handValue (hands.getD c []) < handValue (hands.getD q [])
             then 0
             else 2 * handValue (hands.getD c []))
           else handValue (hands.getD k [])) := by
  have htl : (hands.map handValue).length = hands.length := by simp
  have hc' : c < (hands.map handValue).length := by rw [htl]; exact hc
  have htmpk : ∀ k, k < hands.length →
      (hands.map handValue).getD k 0 = handValue (hands.getD k []) := by
    intro k hk
    rw [List.getD_eq_getElem?_getD, List.getElem?_map,
        List.getElem?_eq_getElem hk]
    simp [List.getD_eq_getElem?_getD, List.getElem?_eq_getElem hk]
  have htc : (hands.map handValue)[c] = handValue (hands.getD c []) := by
    rw [List.getElem_map]
    congr 1
    simp [List.getD_eq_getElem?_getD, List.getElem?_eq_getElem hc]
  have hrl1 : 1 ≤ ((hands.map handValue).eraseIdx c).length := by
    rw [List.length_eraseIdx_of_lt hc', htl]
    omega
  obtain ⟨r, rs, hrest⟩ : ∃ r rs,
      (hands.map handValue).eraseIdx c = r :: rs := by
    cases hE : (hands.map handValue).eraseIdx c with
    | nil => rw [hE] at hrl1; simp at hrl1
    | cons r rs => exact ⟨r, rs, rfl⟩
  obtain ⟨m, hmEq, hmMem, hmLe⟩ := pyMin_spec r rs
  rw [← hrest] at hmEq hmMem hmLe
  have hiff : ((hands.map handValue)[c] < m) ↔
      (∀ q, q < hands.length → q ≠ c →
        handValue (hands.getD c []) < handValue (hands.getD q [])) := by
    constructor
    · intro hlt k hk hkc
      have hk' : k < (hands.map handValue).length := by rw [htl]; exact hk
      have htk : (hands.map handValue)[k] = handValue (hands.getD k []) := by
        rw [List.getElem_map]
        congr 1
        simp [List.getD_eq_getElem?_getD, List.getElem?_eq_getElem hk]
      have hmem : (hands.map handValue)[k] ∈
          (hands.map handValue).eraseIdx c := by
        rw [List.mem_eraseIdx_iff_getElem]
        exact ⟨k, hk', hkc, rfl⟩
      rw [← htc, ← htk]
      exact lt_of_lt_of_le hlt (hmLe _ hmem)
    · intro hall
      obtain ⟨idx, hidx, hidxc, hidxm⟩ :=
        List.mem_eraseIdx_iff_getElem.mp hmMem
      have hidx' : idx < hands.length := by rw [← htl]; exact hidx
      have htidx : (hands.map handValue)[idx] =
          handValue (hands.getD idx []) := by
        rw [List.getElem_map]
        congr 1
        simp [List.getD_eq_getElem?_getD, List.getElem?_eq_getElem hidx']
      rw [← hidxm, htidx, htc]
      exact hall idx hidx' hidxc
  unfold calculateScores
  simp only []
  rw [pyPop_natCast hc', except_bind_ok]
  simp only []
  rw [hmEq, except_bind_ok]
  by_cases hcond : (∀ q, q < hands.length → q ≠ c →
      handValue (hands.getD c []) < handValue (hands.getD q []))
  · rw [if_pos (hiff.mpr hcond), pySet_natCast hc' 0, except_bind_ok,
        bumpLoop_ok vs _ (by rw [hlen, List.length_set, htl])]
    refine ⟨_, rfl, ?_, ?_⟩
    · rw [List.length_zipWith, List.length_set, htl, hlen]
      exact min_self _
    · intro k hk
      rw [zipWith_add_getD vs _ k (by rw [hlen]; exact hk)
        (by rw [List.length_set, htl]; exact hk)]
      congr 1
      by_cases hkc : k = c
      · subst hkc
        rw [if_pos rfl, if_pos hcond, getD_set_self hc']
      · rw [if_neg hkc, getD_set_ne (fun h => hkc h.symm), htmpk k hk]
  · rw [if_neg (fun hlt => hcond (hiff.mp hlt)), pyGet_natCast hc',
        except_bind_ok, pySet_natCast hc' _, except_bind_ok,
        bumpLoop_ok vs _ (by rw [hlen, List.length_set, htl])]
    refine ⟨_, rfl, ?_, ?_⟩
    · rw [List.length_zipWith, List.length_set, htl, hlen]
      exact min_self _
    · intro k hk
      rw [zipWith_add_getD vs _ k (by rw [hlen]; exact hk)
        (by rw [List.length_set, htl]; exact hk)]
      congr 1
      by_cases hkc : k = c
      · subst hkc
        rw [if_pos rfl, if_neg hcond, getD_set_self hc', htc, Int.mul_comm]
      · rw [if_neg hkc, getD_set_ne (fun h => hkc h.symm), htmpk k hk]

/-- C4 witness: caller with hand value 2 against a single opponent with hand
value 3 scores 0 (successful call) while the opponent adds 3. -/
theorem calculate_scores_adjudication_witness :
    ∃ out, calculateScores [[cTwoH], [cThreeC]] ((0 : Nat) : Int) [0, 0] =
        Except.ok out ∧
      out.length = 2 ∧
      ∀ k, k < 2 →
        out.getD k 0 = [(0 : Int), 0].getD k 0 +
          (if k = 0 then
            (if ∀ q, q < 2 → q ≠ 0 →
                handValue ([[cTwoH], [cThreeC]].getD 0 []) <
                  handValue ([[cTwoH], [cThreeC]].getD q [])
             then 0
             else 2 * handValue ([[cTwoH], [cThreeC]].getD 0 []))
           else handValue ([[cTwoH], [cThreeC]].getD k [])) :=
  calculate_scores_adjudication [[cTwoH], [cThreeC]] 0 [0, 0] (by decide)
    (by decide) (by decide)

/-- Bind of a present `Option` computation. -/
theorem option_bind_some {α β : Type} (a : α) (f : α → Option β) :
    (some a >>= f) = f a := rfl

/-- Popping the top of a pile with a known top. -/
theorem popTop_concat {α : Type} (l : List α) (x : α) :
    popTop (l ++ [x]) = some (x, l) := by
  unfold popTop
  rw [List.getLast?_concat, List.dropLast_concat]

/-- Popping any nonempty pile succeeds and shrinks it by one. -/
theorem popTop_of_length_pos {α : Type} {l : List α} (h : 0 < l.length) :
    ∃ c r, popTop l = some (c, r) ∧ r.length + 1 = l.length := by
  have hne : l ≠ [] := by
    intro e
    rw [e] at h
    simp at h
  refine ⟨l.getLast hne, l.dropLast, ?_, ?_⟩
  · conv_lhs => rw [← List.dropLast_concat_getLast hne]
    exact popTop_concat _ _
  · rw [List.length_dropLast]
    omega

/-- One round-robin pass deals one card to every player and shrinks the draw
pile by the player count. -/
theorem dealHandsRound_ok : ∀ (hands : List (List Card)) (draw : List Card),
    hands.length ≤ draw.length →
    ∃ hands₁ draw₁, dealHandsRound hands draw = some (hands₁, draw₁) ∧
      hands₁.length = hands.length ∧
      draw₁.length = draw.length - hands.length ∧
      ∀ k, k < hands.length →
        (hands₁.getD k []).length = (hands.getD k []).length + 1
  | [], draw, _ => ⟨[], draw, rfl, rfl, by simp, by simp⟩
  | h :: hs, draw, hle => by
    have hpos : 0 < draw.length := by
      simp only [List.length_cons] at hle
      omega
    obtain ⟨c, d₁, hpop, hlen1⟩ := popTop_of_length_pos hpos
    have hle' : hs.length ≤ d₁.length := by
      simp only [List.length_cons] at hle
      omega
    obtain ⟨hs₁, d₂, hrec, hl1, hl2, hl3⟩ := dealHandsRound_ok hs d₁ hle'
    refine ⟨(h ++ [c]) :: hs₁, d₂, ?_, by simp [hl1], ?_, ?_⟩
    · unfold dealHandsRound
      rw [hpop, option_bind_some]
      simp only []
      rw [hrec, option_bind_some]
    · simp only [List.length_cons]
      omega
    · intro k hk
      cases k with
      | zero => simp
      | succ k' =>
        simp only [List.getD_cons_succ]
        exact hl3 k' (by simpa using hk)

/-- `hand_size` round-robin passes. -/
theorem dealHandsRounds_ok : ∀ (k : Nat) (hands : List (List Card))
    (draw : List Card), k * hands.length ≤ draw.length →
    ∃ hands₁ draw₁, dealHandsRounds k hands draw = some (hands₁, draw₁) ∧
      hands₁.length = hands.length ∧
      draw₁.length = draw.length - k * hands.length ∧
      ∀ m, m < hands.length →
        (hands₁.getD m []).length = (hands.getD m []).length + k
  | 0, hands, draw, _ => ⟨hands, draw, rfl, rfl, by simp, by simp⟩
  | k + 1, hands, draw, hle => by
    have hmul : (k + 1) * hands.length = k * hands.length + hands.length :=
      Nat.succ_mul k hands.length
    obtain ⟨hands₁, draw₁, hR, hRl, hRd, hRp⟩ :=
      dealHandsRound_ok hands draw (by omega)
    obtain ⟨hands₂, draw₂, hS, hSl, hSd, hSp⟩ :=
      dealHandsRounds_ok k hands₁ draw₁ (by rw [hRl]; omega)
    rw [hRl] at hSd hSp
    refine ⟨hands₂, draw₂, ?_, by rw [hSl, hRl], by omega, ?_⟩
    · unfold dealHandsRounds
      rw [hR, option_bind_some]
      simp only []
      rw [hS]
    · intro m hm
      rw [hSp m hm, hRp m hm]
      omega

/-- Popping `k` cards from a long-enough pile. -/
theorem popN_ok : ∀ (k : Nat) (l : List Card), k ≤ l.length →
    ∃ cs l₁, popN k l = some (cs, l₁) ∧ cs.length = k ∧
      l₁.length = l.length - k
  | 0, l, _ => ⟨[], l, rfl, rfl, by simp⟩
  | k + 1, l, hle => by
    obtain ⟨c, r, hpop, hlen⟩ := popTop_of_length_pos (l := l) (by omega)
    obtain ⟨cs, l₁, hrec, hcs, hl1⟩ := popN_ok k r (by omega)
    refine ⟨c :: cs, l₁, ?_, by simp [hcs], by omega⟩
    unfold popN
    rw [hpop, option_bind_some]
    simp only []
    rw [hrec, option_bind_some]

/-- A successful deal, with the sizes it produces. -/
theorem dealInitialHands_ok (d : Dealer) (hands : List (List Card))
    (hle : hands.length * d.handSize + d.treasureSize + 1 ≤ d.drawPile.length) :
    ∃ d₁ hands₁, d.dealInitialHands hands = Except.ok (d₁, hands₁) ∧
      hands₁.length = hands.length ∧
      (∀ m, m < hands.length →
        (hands₁.getD m []).length = (hands.getD m []).length + d.handSize) ∧
      d₁.treasure.length = d.treasure.length + d.treasureSize ∧
      d₁.discardPile.length = d.discardPile.length + 1 ∧
      d₁.drawPile.length =
        d.drawPile.length - (hands.length * d.handSize + d.treasureSize + 1) := by
  have hcomm : d.handSize * hands.length = hands.length * d.handSize :=
    Nat.mul_comm _ _
  obtain ⟨hands₁, draw₁, hR, hRl, hRd, hRp⟩ :=
    dealHandsRounds_ok d.handSize hands d.drawPile (by omega)
  obtain ⟨tc, draw₂, hN, hNc, hNl⟩ := popN_ok d.treasureSize draw₁ (by omega)
  obtain ⟨c, draw₃, hT, hTl⟩ := popTop_of_length_pos
    (l := draw₂) (by omega)
  refine ⟨Dealer.viewUpdate (Dealer.discardAppend
      { d with drawPile := draw₃, treasure := d.treasure ++ tc } c),
    hands₁, ?_, hRl, hRp, ?_, ?_, ?_⟩
  · unfold Dealer.dealInitialHands
    rw [if_neg (by omega), hR]
    simp only []
    rw [hN]
    simp only []
    rw [hT]
  · simp [Dealer.viewUpdate, Dealer.discardAppend, hNc]
  · simp [Dealer.viewUpdate, Dealer.discardAppend]
  · simp only [Dealer.viewUpdate, Dealer.discardAppend]
    omega

/-- Round-robin on a known draw-pile tail: each of the two players receives
one card per pass, in pile order. -/
theorem dealHandsRound_two (h1 h2 : List Card) (l : List Card)
    (c1 c2 : Card) :
    dealHandsRound [h1, h2] (l ++ [c2, c1]) =
      some ([h1 ++ [c1], h2 ++ [c2]], l) := by
  unfold dealHandsRound
  rw [show l ++ [c2, c1] = (l ++ [c2]) ++ [c1] by simp, popTop_concat,
      option_bind_some]
  simp only []
  unfold dealHandsRound
  rw [popTop_concat, option_bind_some]
  simp only []
  unfold dealHandsRound
  rfl

/-- Two round-robin passes on a known four-card tail: tops are consumed in
the order P1, P2, P1, P2. -/
theorem dealHandsRounds_two (h1 h2 : List Card) (l : List Card)
    (c1 c2 c3 c4 : Card) :
    dealHandsRounds 2 [h1, h2] (l ++ [c4, c3, c2, c1]) =
      some ([h1 ++ [c1] ++ [c3], h2 ++ [c2] ++ [c4]], l) := by
  unfold dealHandsRounds
  rw [show l ++ [c4, c3, c2, c1] = (l ++ [c4, c3]) ++ [c2, c1] by simp,
      dealHandsRound_two, option_bind_some]
  simp only []
  unfold dealHandsRounds
  rw [dealHandsRound_two, option_bind_some]
  rfl

/-- C5: the initial deal.  (a) It raises (the spec's
InsufficientCardsError, a ValueError in the code) exactly when the draw pile
holds fewer than `players*handSize + treasureSize + 1` cards — the guard
runs before any mutation, so the failing case leaves every pile untouched.
(b) On success from a round-start state (empty hands, treasure and discard)
every hand ends with exactly `handSize` cards, the treasure with
`treasureSize`, the discard pile with 1, and the draw pile shrinks by
`players*handSize + treasureSize + 1`.  (c) With two players and hand size
2, the draw-pile tops are consumed in the order P1, P2, P1, P2. -/
theorem deal_initial_hands_spec :
    (∀ (d : Dealer) (hands : List (List Card)),
      (∃ e, d.dealInitialHands hands = Except.error e) ↔
        d.drawPile.length <
          hands.length * d.handSize + d.treasureSize + 1) ∧
    (∀ (d : Dealer) (hands : List (List Card)) (d₁ : Dealer)
        (hands₁ : List (List Card)),
      (∀ h ∈ hands, h = []) → d.treasure = [] → d.discardPile = [] →
      d.dealInitialHands hands = Except.ok (d₁, hands₁) →
      (∀ h ∈ hands₁, h.length = d.handSize) ∧
      d₁.treasure.length = d.treasureSize ∧
      d₁.discardPile.length = 1 ∧
      d₁.drawPile.length =
        d.drawPile.length -
          (hands.length * d.handSize + d.treasureSize + 1)) ∧
    (∀ (d : Dealer) (rest : List Card) (e1 e2 e3 e4 : Card),
      d.handSize = 2 → d.drawPile = rest ++ [e4, e3, e2, e1] →
      d.treasureSize + 1 ≤ rest.length →
      ∃ d₁, d.dealInitialHands [[], []] =
        Except.ok (d₁, [[e1, e3], [e2, e4]])) := by
  refine ⟨?_, ?_, ?_⟩
  · intro d hands
    constructor
    · rintro ⟨e, he⟩
      by_contra hge
      push_neg at hge
      obtain ⟨d₁, hands₁, hok, -⟩ := dealInitialHands_ok d hands hge
      rw [hok] at he
      cases he
    · intro hlt
      refine ⟨Err.valueError, ?_⟩
      unfold Dealer.dealInitialHands
      rw [if_pos hlt]
  · intro d hands d₁ hands₁ hempty htre hdis hdeal
    have hge : hands.length * d.handSize + d.treasureSize + 1 ≤
        d.drawPile.length := by
      by_contra hlt
      push_neg at hlt
      have : d.dealInitialHands hands = Except.error Err.valueError := by
        unfold Dealer.dealInitialHands
        rw [if_pos hlt]
      rw [this] at hdeal
      cases hdeal
    obtain ⟨d₂, hands₂, hok, hl, hp, ht, hd, hw⟩ :=
      dealInitialHands_ok d hands hge
    rw [hdeal] at hok
    obtain ⟨he1, he2⟩ : d₁ = d₂ ∧ hands₁ = hands₂ := by
      cases hok
      exact ⟨rfl, rfl⟩
    subst he1
    subst he2
    refine ⟨?_, by rw [ht, htre]; simp, by rw [hd, hdis]; simp, hw⟩
    intro h hmem
    obtain ⟨k, hk, hkh⟩ := List.mem_iff_getElem.mp hmem
    have hk' : k < hands.length := by rw [← hl]; exact hk
    have hgd : hands₁.getD k [] = h := by
      rw [List.getD_eq_getElem?_getD, List.getElem?_eq_getElem hk, hkh]
      rfl
    have := hp k hk'
    rw [hgd] at this
    have hzero : (hands.getD k []).length = 0 := by
      rcases hz : hands[k]? with - | hh
      · simp [List.getD_eq_getElem?_getD, hz]
      · have : hh ∈ hands := List.getElem?_mem hz
        rw [hempty hh this] at hz
        simp [List.getD_eq_getElem?_getD, hz]
    omega
  · intro d rest e1 e2 e3 e4 hh hd hT
    have hguard : ¬ (d.drawPile.length <
        ([[], []] : List (List Card)).length * d.handSize +
          d.treasureSize + 1) := by
      rw [hd, hh]
      simp only [List.length_append, List.length_cons, List.length_nil]
      omega
    obtain ⟨tc, rest₂, hN, hNc, hNl⟩ :=
      popN_ok d.treasureSize rest (by omega)
    obtain ⟨c, rest₃, hTp, hTpl⟩ :=
      popTop_of_length_pos (l := rest₂) (by omega)
    refine ⟨Dealer.viewUpdate (Dealer.discardAppend
      { d with drawPile := rest₃, treasure := d.treasure ++ tc } c), ?_⟩
    unfold Dealer.dealInitialHands
    rw [if_neg hguard, hh, hd, dealHandsRounds_two]
    simp only []
    rw [hN]
    simp only []
    rw [hTp]
    simp only [List.nil_append]
    rfl

/-- C5 witness: a 20-player deal from a 54-card pile fails, and a concrete
2-player, hand-size-2 deal from the known pile
`[c5, c4, c3, c2, c1]` (c1 = top) produces the hands
`[[c1, c3], [c2, c4]]` — consuming tops in the order P1, P2, P1, P2. -/
theorem deal_initial_hands_spec_witness :
    (∃ e, (Dealer.init 5 3).dealInitialHands
      (List.replicate 20 []) = Except.error e) ∧
    (∃ d₁, d5w.dealInitialHands [[], []] =
      Except.ok (d₁, [[cAS, cThreeC], [cTwoH, cFourD]])) := by
  constructor
  · exact (deal_initial_hands_spec.1 (Dealer.init 5 3)
      (List.replicate 20 [])).mpr (by decide)
  · exact deal_initial_hands_spec.2.2 d5w [cFiveS] cAS cTwoH cThreeC cFourD
      rfl rfl (by decide)

end Skibidi
